import Mathlib

/-!
# The `NoCopy` class of `c++2011-tour.cc`

`NoCopy` owns one heap slot created by `new int(s)`.  Its copy constructor and
copy assignment are deleted; its move constructor adopts the donor's slot and
sets the donor's pointer to `0`; its destructor prints the value when the
pointer is non-null and then runs `delete d_s`.

The embedding is shallow.  A pointer is a `Nat`: `0` is the null pointer and
`q + 1` is the address of the heap cell with index `q`.  `new int(s)` always
returns a fresh address (cells are never reused), so that every allocation and
every release stays visible.  Reading or deleting through a pointer that is
null, released or never allocated leaves defined behaviour and is reported as a
`Fault`.  The stored `int` is only stored and read back, never computed with,
so its width plays no part and it is an `Int`.
-/

namespace Tour

/-- Ways in which an execution leaves defined behaviour. -/
inductive Fault where
  | nullDeref
  | danglingDeref
  | badDelete
  | deadObject
  deriving DecidableEq, Repr

deriving instance DecidableEq for Except

/-- One heap cell made by `new int(s)`: the stored value and whether `delete` has released it. -/
structure Cell where
  val : Int
  freed : Bool
  deriving DecidableEq, Repr

/-- Calls of the allocator, recorded in order of execution. -/
inductive HeapEv where
  | alloc (p : Nat)
  | release (p : Nat)
  deriving DecidableEq, Repr

/-- Lines that the members of `NoCopy` write to `cout` (object addresses left out). -/
inductive Msg where
  | constructed (s : Int)
  | moveConstructed (v : Int)
  | beingDestroyed (v : Int)
  deriving DecidableEq, Repr

/-- Machine state touched by the members of `NoCopy`: the heap, the record of
allocator calls and the text written to `cout`. -/
structure Mem where
  heap : List Cell
  log : List HeapEv
  out : List Msg
  deriving DecidableEq, Repr

/-- State at program start: nothing allocated, nothing printed. -/
def Mem.empty : Mem := ⟨[], [], []⟩

/-- Cell found at address `p`, if `p` is the address of a cell. -/
def Mem.cellAt (m : Mem) : Nat → Option Cell
  | 0 => none
  | q + 1 => m.heap[q]?

/-- Expression `new int(s)`: a fresh cell holding `s`; returns its address. -/
def Mem.newInt (m : Mem) (s : Int) : Nat × Mem :=
  (m.heap.length + 1,
    { m with heap := m.heap ++ [⟨s, false⟩], log := m.log ++ [HeapEv.alloc (m.heap.length + 1)] })

/-- Expression `*p`. -/
def Mem.deref (m : Mem) (p : Nat) : Except Fault Int :=
  match m.cellAt p with
  | none => if p = 0 then .error .nullDeref else .error .danglingDeref
  | some c => if c.freed then .error .danglingDeref else .ok c.val

/-- Statement `delete p`: nothing happens for a null pointer, otherwise the cell is released. -/
def Mem.deleteInt (m : Mem) (p : Nat) : Except Fault Mem :=
  if p = 0 then .ok m
  else
    match m.cellAt p with
    | none => .error .badDelete
    | some c =>
      if c.freed then .error .badDelete
      else .ok { m with heap := m.heap.set (p - 1) { c with freed := true },
                        log := m.log ++ [HeapEv.release p] }

/-- Append one line to `cout`. -/
def Mem.print (m : Mem) (x : Msg) : Mem := { m with out := m.out ++ [x] }

/-- Class `NoCopy`: its only data member, `int* d_s = 0`. -/
structure NoCopy where
  d_s : Nat := 0
  deriving DecidableEq, Repr

/-- Constructor `explicit NoCopy(int s)`: prints, then `d_s = new int(s)`. -/
def NoCopy.ctor (s : Int) (m : Mem) : NoCopy × Mem :=
  let r := (m.print (Msg.constructed s)).newInt s
  ({ d_s := r.1 }, r.2)

/-- Move constructor `NoCopy(NoCopy&& rhs)`: `d_s = rhs.d_s; rhs.d_s = 0;` and then the
print of `*d_s`.  Returns the new object, the donor as it is left, and the state. -/
def NoCopy.moveCtor (rhs : NoCopy) (m : Mem) : Except Fault (NoCopy × NoCopy × Mem) :=
  let self : NoCopy := { d_s := rhs.d_s }
  let donor : NoCopy := { rhs with d_s := 0 }
  match m.deref self.d_s with
  | .error f => .error f
  | .ok v => .ok (self, donor, m.print (Msg.moveConstructed v))

/-- Member `int getS() const`: `return *d_s;`. -/
def NoCopy.getS (self : NoCopy) (m : Mem) : Except Fault Int :=
  m.deref self.d_s

/-- Destructor `~NoCopy()`: `if(d_s) cout << ... << *d_s ...; delete d_s;`. -/
def NoCopy.dtor (self : NoCopy) (m : Mem) : Except Fault Mem :=
  if self.d_s ≠ 0 then
    match m.deref self.d_s with
    | .error f => .error f
    | .ok v => (m.print (Msg.beingDestroyed v)).deleteInt self.d_s
  else m.deleteInt self.d_s

/-- An instance is empty when its slot pointer is null. -/
def NoCopy.isEmpty (self : NoCopy) : Bool := self.d_s == 0

/-! ## Whole-program states

A running program is the machine state together with every `NoCopy` object it has
constructed so far; an object is named by its position in that list and stays in
the list, marked dead, once its destructor has run.  There is no operation that
copies an object: the copy constructor and `operator=` are deleted in the class. -/

/-- An object of class `NoCopy` in a running program. -/
structure Inst where
  obj : NoCopy
  live : Bool
  deriving DecidableEq, Repr

/-- Program state: machine state and the table of objects. -/
structure Prog where
  mem : Mem
  objs : List Inst
  deriving DecidableEq, Repr

/-- Program state before any `NoCopy` exists. -/
def Prog.empty : Prog := ⟨Mem.empty, []⟩

/-- Things a program can do with `NoCopy` objects that change the state. -/
inductive Op where
  | construct (s : Int)
  | moveFrom (src : Nat)
  | destroy (i : Nat)
  deriving DecidableEq, Repr

/-- Declaration `NoCopy x(s);`: the new object is the last entry of the table. -/
def Prog.construct (P : Prog) (s : Int) : Prog :=
  let r := NoCopy.ctor s P.mem
  { mem := r.2, objs := P.objs ++ [⟨r.1, true⟩] }

/-- Declaration `NoCopy y(move(x));` for the live object `x` at position `i`. -/
def Prog.moveFrom (P : Prog) (i : Nat) : Except Fault Prog :=
  match P.objs[i]? with
  | none => .error .deadObject
  | some e =>
    if e.live then
      match NoCopy.moveCtor e.obj P.mem with
      | .error f => .error f
      | .ok (self, donor, m) =>
        .ok { mem := m, objs := P.objs.set i ⟨donor, true⟩ ++ [⟨self, true⟩] }
    else .error .deadObject

/-- End of the lifetime of the live object at position `i`: its destructor runs. -/
def Prog.destroy (P : Prog) (i : Nat) : Except Fault Prog :=
  match P.objs[i]? with
  | none => .error .deadObject
  | some e =>
    if e.live then
      match e.obj.dtor P.mem with
      | .error f => .error f
      | .ok m => .ok { mem := m, objs := P.objs.set i ⟨e.obj, false⟩ }
    else .error .deadObject

/-- One operation. -/
def Prog.step (P : Prog) : Op → Except Fault Prog
  | .construct s => .ok (P.construct s)
  | .moveFrom i => P.moveFrom i
  | .destroy i => P.destroy i

/-- A sequence of operations, stopping at the first fault. -/
def Prog.run (P : Prog) : List Op → Except Fault Prog
  | [] => .ok P
  | o :: os =>
    match P.step o with
    | .error f => .error f
    | .ok Q => Q.run os

/-- Every non-null slot held by a live object is allocated and not released. -/
def Prog.OwnedLive (P : Prog) : Prop :=
  ∀ (i : Nat) (e : Inst), P.objs[i]? = some e → e.live = true → e.obj.d_s ≠ 0 →
    ∃ c, P.mem.cellAt e.obj.d_s = some c ∧ c.freed = false

/-- No two live objects hold the same non-null slot. -/
def Prog.NoAlias (P : Prog) : Prop :=
  ∀ (i j : Nat) (ei ej : Inst), P.objs[i]? = some ei → P.objs[j]? = some ej →
    ei.live = true → ej.live = true → ei.obj.d_s ≠ 0 → ei.obj.d_s = ej.obj.d_s → i = j

/-- Every slot that is allocated and not released is held by some live object. -/
def Prog.NoLeak (P : Prog) : Prop :=
  ∀ (p : Nat) (c : Cell), P.mem.cellAt p = some c → c.freed = false →
    ∃ (i : Nat) (e : Inst), P.objs[i]? = some e ∧ e.live = true ∧ e.obj.d_s = p

/-- Number of `new int` calls in a record of allocator calls. -/
def allocCount (l : List HeapEv) : Nat :=
  l.countP (fun e => match e with | .alloc _ => true | .release _ => false)

/-- Number of non-null `delete` calls in a record of allocator calls. -/
def releaseCount (l : List HeapEv) : Nat :=
  l.countP (fun e => match e with | .alloc _ => false | .release _ => true)

/-- The record of allocator calls agrees with the heap: each cell was allocated once,
and released once if it is marked released and never otherwise. -/
def Mem.LogOK (m : Mem) : Prop :=
  ∀ p, m.log.count (HeapEv.alloc p) = (if 1 ≤ p ∧ p ≤ m.heap.length then 1 else 0) ∧
    m.log.count (HeapEv.release p) =
      (match m.cellAt p with
       | some c => if c.freed then 1 else 0
       | none => 0)

/-- Invariant of program states: slots held by live objects are allocated and not
released, no slot has two live holders, no unreleased slot is without a live holder,
and the record of allocator calls agrees with the heap. -/
structure Prog.Inv (P : Prog) : Prop where
  owned : P.OwnedLive
  noAlias : P.NoAlias
  noLeak : P.NoLeak
  logOK : P.mem.LogOK

/-- Whether address `p` names a cell that `delete` has released. -/
def Mem.released (m : Mem) (p : Nat) : Bool :=
  match m.cellAt p with
  | some c => c.freed
  | none => false

/-- State of `main` after lines 190 to 192, `NoCopy A(123); NoCopy B(move(A));`, when run
from the empty program state: `A` is object 0 and `B` is object 1. -/
def afterMoveProg : Prog :=
  ⟨⟨[⟨123, false⟩], [HeapEv.alloc 1], [Msg.constructed 123, Msg.moveConstructed 123]⟩,
    [⟨⟨0⟩, true⟩, ⟨⟨1⟩, true⟩]⟩

/-! ## Programs built from the members -/

/-- Sequence `NoCopy a(v); NoCopy b(move(a));`: returns `a` as constructed, then `b`,
`a` as the move leaves it, and the state. -/
def createThenMove (v : Int) (m : Mem) : Except Fault (NoCopy × NoCopy × NoCopy × Mem) :=
  let a := NoCopy.ctor v m
  match NoCopy.moveCtor a.1 a.2 with
  | .error f => .error f
  | .ok (b, a1, m1) => .ok (a.1, b, a1, m1)

/-- Sequence `NoCopy a(v); NoCopy b(move(a)); NoCopy c(move(b));`: returns `a` and `b`
as the moves leave them, then `c`, and the state. -/
def chain (v : Int) (m : Mem) : Except Fault (NoCopy × NoCopy × NoCopy × Mem) :=
  let a := NoCopy.ctor v m
  match NoCopy.moveCtor a.1 a.2 with
  | .error f => .error f
  | .ok (b, a1, m1) =>
    match NoCopy.moveCtor b m1 with
    | .error f => .error f
    | .ok (c, b1, m2) => .ok (a1, b1, c, m2)

/-- Sequence `NoCopy a(v); NoCopy b(move(a)); NoCopy c(move(a));`: a second move from
the same donor. -/
def moveTwice (v : Int) (m : Mem) : Except Fault (NoCopy × NoCopy × NoCopy × Mem) :=
  let a := NoCopy.ctor v m
  match NoCopy.moveCtor a.1 a.2 with
  | .error f => .error f
  | .ok (b, a1, m1) =>
    match NoCopy.moveCtor a1 m1 with
    | .error f => .error f
    | .ok (c, a2, m2) => .ok (a2, b, c, m2)

/-- Block `{ NoCopy a(v); NoCopy b(move(a)); }`: at the closing brace `b` is destroyed
first and `a` second. -/
def moveThenDestroyBoth (v : Int) (m : Mem) : Except Fault Mem :=
  match createThenMove v m with
  | .error f => .error f
  | .ok (_, b, a1, m1) =>
    match b.dtor m1 with
    | .error f => .error f
    | .ok m2 => a1.dtor m2

/-! ## The `vector<NoCopy>` block of `main`

The code of `std::vector` belongs to the standard library, not to this repository.
What the block relies on is taken from the library's contract: `emplace_back`
move-constructs the new element from its argument; when the storage is exhausted the
elements are moved into new storage with the move constructor (the copy constructor
is deleted) and the old elements are destroyed; destroying the vector destroys its
elements in order.  Whether the storage is exhausted at a given size is the library's
growth policy and is a parameter, `grow`. -/

/-- Move-construct a new object from each object of the list, in order.  Returns the new
objects, the donors as they are left, and the state. -/
def moveAll (m : Mem) : List NoCopy → Except Fault (List NoCopy × List NoCopy × Mem)
  | [] => .ok ([], [], m)
  | x :: xs =>
    match NoCopy.moveCtor x m with
    | .error f => .error f
    | .ok (y, x1, m1) =>
      match moveAll m1 xs with
      | .error f => .error f
      | .ok (ys, xs1, m2) => .ok (y :: ys, x1 :: xs1, m2)

/-- Run the destructor of each object of the list, in order. -/
def destroyAll (m : Mem) : List NoCopy → Except Fault Mem
  | [] => .ok m
  | x :: xs =>
    match x.dtor m with
    | .error f => .error f
    | .ok m1 => destroyAll m1 xs

/-- Growth of the vector: every element is moved into new storage, then the old elements
are destroyed. -/
def relocate (m : Mem) (vec : List NoCopy) : Except Fault (List NoCopy × Mem) :=
  match moveAll m vec with
  | .error f => .error f
  | .ok (ys, olds, m1) =>
    match destroyAll m1 olds with
    | .error f => .error f
    | .ok m2 => .ok (ys, m2)

/-- Statement `ncvec.emplace_back(NoCopy(n));`: the temporary `NoCopy(n)` is constructed,
the new element is move-constructed from it (after which, if `grow`, the old elements are
relocated), and the temporary is destroyed at the end of the statement. -/
def emplaceBack (grow : Bool) (vec : List NoCopy) (n : Int) (m : Mem) :
    Except Fault (List NoCopy × Mem) :=
  let t := NoCopy.ctor n m
  match NoCopy.moveCtor t.1 t.2 with
  | .error f => .error f
  | .ok (elem, tmp, m1) =>
    match (if grow then relocate m1 vec else .ok (vec, m1)) with
    | .error f => .error f
    | .ok (vec1, m2) =>
      match tmp.dtor m2 with
      | .error f => .error f
      | .ok m3 => .ok (vec1 ++ [elem], m3)

/-- Loop `for(auto n : ns) ncvec.emplace_back(NoCopy(n));`. -/
def fillVector (grow : Nat → Bool) : List Int → List NoCopy → Mem → Except Fault (List NoCopy × Mem)
  | [], vec, m => .ok (vec, m)
  | n :: ns, vec, m =>
    match emplaceBack (grow vec.length) vec n m with
    | .error f => .error f
    | .ok (vec1, m1) => fillVector grow ns vec1 m1

/-- Loop `for(auto& n : ncvec) cout << n.getS() << endl;`: the values printed. -/
def readAll (m : Mem) : List NoCopy → Except Fault (List Int)
  | [] => .ok []
  | x :: xs =>
    match x.getS m with
    | .error f => .error f
    | .ok v =>
      match readAll m xs with
      | .error f => .error f
      | .ok vs => .ok (v :: vs)

/-- Block of lines 157 to 164 for a list `ns` of ints (`{1,2,3,4}` in `main`): fill the
vector, print every element, destroy the vector at the closing brace.  Returns the
values printed by the second loop and the state. -/
def vectorScope (grow : Nat → Bool) (ns : List Int) (m : Mem) : Except Fault (List Int × Mem) :=
  match fillVector grow ns [] m with
  | .error f => .error f
  | .ok (vec, m1) =>
    match readAll m1 vec with
    | .error f => .error f
    | .ok printed =>
      match destroyAll m1 vec with
      | .error f => .error f
      | .ok m2 => .ok (printed, m2)

/-- Number of `Constructed` lines in the output. -/
def constructedCount (o : List Msg) : Nat :=
  o.countP (fun x => match x with | .constructed _ => true | _ => false)

/-- Number of `Being destroyed` lines in the output. -/
def destroyedCount (o : List Msg) : Nat :=
  o.countP (fun x => match x with | .beingDestroyed _ => true | _ => false)

/-- Every object of the list holds a slot that is allocated and not released. -/
def AllLive (m : Mem) (vec : List NoCopy) : Prop :=
  ∀ x ∈ vec, ∃ c, m.cellAt x.d_s = some c ∧ c.freed = false

/-- The second state has the heap and the allocator record of the first, and as many
`Constructed` and `Being destroyed` lines. -/
def SameHeap (m m1 : Mem) : Prop :=
  m1.heap = m.heap ∧ m1.log = m.log ∧ constructedCount m1.out = constructedCount m.out ∧
    destroyedCount m1.out = destroyedCount m.out

/-- Growth policy of a vector that doubles its storage: the storage is exhausted when the
size is 0 or a power of two. -/
def doubling (size : Nat) : Bool :=
  size == 0 || (List.range size).any (fun k => size == 2 ^ k)

/-! ## The statements of `main` that touch `NoCopy`

Lines 145 to 194.  A `unique_ptr<NoCopy>` made from `new NoCopy(n)` runs the constructor
of `NoCopy` once and its destructor once, when the owning pointer is destroyed; moving a
`unique_ptr` calls no member of `NoCopy`. -/

/-- Lines 145 to 193 of `main`, up to the last read: returns the values printed on lines
191 and 193, then `A` and `B` as they are before line 194, and the state. -/
def mainBeforeLastRead (grow : Nat → Bool) : Except Fault (Int × Int × NoCopy × NoCopy × Mem) :=
  let nc := NoCopy.ctor 1 Mem.empty
  let bc := NoCopy.ctor 2 nc.2
  match vectorScope grow [1, 2, 3, 4] bc.2 with
  | .error f => .error f
  | .ok (_, m1) =>
    let up := NoCopy.ctor 1 m1
    let u0 := NoCopy.ctor 0 up.2
    let u1 := NoCopy.ctor 1 u0.2
    let u2 := NoCopy.ctor 2 u1.2
    let u3 := NoCopy.ctor 3 u2.2
    match u3.1.getS u3.2 with
    | .error f => .error f
    | .ok _ =>
      match destroyAll u3.2 [u3.1, u0.1, u1.1, u2.1] with
      | .error f => .error f
      | .ok m2 =>
        let a := NoCopy.ctor 123 m2
        match a.1.getS a.2 with
        | .error f => .error f
        | .ok va =>
          match NoCopy.moveCtor a.1 a.2 with
          | .error f => .error f
          | .ok (b, a1, m3) =>
            match b.getS m3 with
            | .error f => .error f
            | .ok vb => .ok (va, vb, a1, b, m3)

/-- Line 194 of `main`, the read `A.getS()` announced by `Will now crash`. -/
def mainLastRead (grow : Nat → Bool) : Except Fault Int :=
  match mainBeforeLastRead grow with
  | .error f => .error f
  | .ok (_, _, a1, _, m) => a1.getS m

/-- State of `main` before line 194 when the vector doubles its storage. -/
def mainMem : Mem :=
  ⟨[⟨1, false⟩, ⟨2, false⟩, ⟨1, true⟩, ⟨2, true⟩, ⟨3, true⟩, ⟨4, true⟩, ⟨1, false⟩,
      ⟨0, true⟩, ⟨1, true⟩, ⟨2, true⟩, ⟨3, true⟩, ⟨123, false⟩],
    [.alloc 1, .alloc 2, .alloc 3, .alloc 4, .alloc 5, .alloc 6, .release 3, .release 4,
      .release 5, .release 6, .alloc 7, .alloc 8, .alloc 9, .alloc 10, .alloc 11,
      .release 11, .release 8, .release 9, .release 10, .alloc 12],
    [.constructed 1, .constructed 2,
      .constructed 1, .moveConstructed 1, .constructed 2, .moveConstructed 2, .moveConstructed 1,
      .constructed 3, .moveConstructed 3, .moveConstructed 1, .moveConstructed 2,
      .constructed 4, .moveConstructed 4,
      .beingDestroyed 1, .beingDestroyed 2, .beingDestroyed 3, .beingDestroyed 4,
      .constructed 1, .constructed 0, .constructed 1, .constructed 2, .constructed 3,
      .beingDestroyed 3, .beingDestroyed 0, .beingDestroyed 1, .beingDestroyed 2,
      .constructed 123, .moveConstructed 123]⟩

/-! ## Basic facts about the heap and the members -/

theorem deref_null (m : Mem) : m.deref 0 = .error .nullDeref := by
  simp [Mem.deref, Mem.cellAt]

theorem deref_live (m : Mem) (p : Nat) (c : Cell) (h : m.cellAt p = some c)
    (hf : c.freed = false) : m.deref p = .ok c.val := by
  simp [Mem.deref, h, hf]

theorem deref_ok_iff (m : Mem) (p : Nat) (v : Int) :
    m.deref p = .ok v ↔ ∃ c, m.cellAt p = some c ∧ c.freed = false ∧ c.val = v := by
  unfold Mem.deref
  cases h : m.cellAt p with
  | none => by_cases hp : p = 0 <;> simp [hp]
  | some c => cases hf : c.freed <;> simp [hf]

theorem cellAt_print (m : Mem) (x : Msg) (p : Nat) : (m.print x).cellAt p = m.cellAt p := by
  cases p <;> rfl

theorem ctor_eq (v : Int) (m : Mem) :
    NoCopy.ctor v m =
      (⟨m.heap.length + 1⟩,
        ⟨m.heap ++ [⟨v, false⟩], m.log ++ [HeapEv.alloc (m.heap.length + 1)],
          m.out ++ [Msg.constructed v]⟩) := rfl

theorem cellAt_ctor_new (v : Int) (m : Mem) :
    (NoCopy.ctor v m).2.cellAt (m.heap.length + 1) = some ⟨v, false⟩ := by
  simp [ctor_eq, Mem.cellAt]

theorem moveCtor_live (x : NoCopy) (m : Mem) (c : Cell) (h : m.cellAt x.d_s = some c)
    (hf : c.freed = false) :
    NoCopy.moveCtor x m = .ok (x, ⟨0⟩, m.print (Msg.moveConstructed c.val)) := by
  simp [NoCopy.moveCtor, deref_live m x.d_s c h hf]

theorem dtor_empty (m : Mem) : NoCopy.dtor ⟨0⟩ m = .ok m := by
  simp [NoCopy.dtor, Mem.deleteInt]

theorem createThenMove_eq (v : Int) (m : Mem) :
    createThenMove v m =
      .ok (⟨m.heap.length + 1⟩, ⟨m.heap.length + 1⟩, ⟨0⟩,
        ⟨m.heap ++ [⟨v, false⟩], m.log ++ [HeapEv.alloc (m.heap.length + 1)],
          m.out ++ [Msg.constructed v, Msg.moveConstructed v]⟩) := by
  have h := moveCtor_live (NoCopy.ctor v m).1 (NoCopy.ctor v m).2 ⟨v, false⟩
    (cellAt_ctor_new v m) rfl
  simp only [createThenMove, h]
  simp [ctor_eq, Mem.print]

theorem cellAt_ne_zero (m : Mem) (p : Nat) (c : Cell) (h : m.cellAt p = some c) : p ≠ 0 := by
  rintro rfl
  simp [Mem.cellAt] at h

theorem dtor_live (x : NoCopy) (m : Mem) (c : Cell) (h : m.cellAt x.d_s = some c)
    (hf : c.freed = false) :
    x.dtor m = .ok ⟨m.heap.set (x.d_s - 1) ⟨c.val, true⟩, m.log ++ [HeapEv.release x.d_s],
      m.out ++ [Msg.beingDestroyed c.val]⟩ := by
  have h0 : x.d_s ≠ 0 := cellAt_ne_zero m _ c h
  have h1 : (m.print (Msg.beingDestroyed c.val)).cellAt x.d_s = some c := by
    rw [cellAt_print]; exact h
  unfold NoCopy.dtor
  rw [if_pos h0, deref_live m x.d_s c h hf]
  simp only [Mem.deleteInt, if_neg h0, h1]
  simp [hf, Mem.print]

theorem chain_eq (v : Int) (m : Mem) :
    chain v m =
      .ok (⟨0⟩, ⟨0⟩, ⟨m.heap.length + 1⟩,
        ⟨m.heap ++ [⟨v, false⟩], m.log ++ [HeapEv.alloc (m.heap.length + 1)],
          m.out ++ [Msg.constructed v, Msg.moveConstructed v, Msg.moveConstructed v]⟩) := by
  simp [chain, NoCopy.moveCtor, NoCopy.ctor, Mem.newInt, Mem.print, Mem.deref, Mem.cellAt]

theorem moveTwice_eq (v : Int) (m : Mem) : moveTwice v m = .error .nullDeref := by
  simp [moveTwice, NoCopy.moveCtor, NoCopy.ctor, Mem.newInt, Mem.print, Mem.deref, Mem.cellAt]

theorem moveThenDestroyBoth_eq (v : Int) (m : Mem) :
    moveThenDestroyBoth v m =
      .ok ⟨m.heap ++ [⟨v, true⟩],
        m.log ++ [HeapEv.alloc (m.heap.length + 1), HeapEv.release (m.heap.length + 1)],
        m.out ++ [Msg.constructed v, Msg.moveConstructed v, Msg.beingDestroyed v]⟩ := by
  simp [moveThenDestroyBoth, createThenMove_eq, NoCopy.dtor, Mem.deleteInt, Mem.print,
    Mem.deref, Mem.cellAt]

/-! ## Lookups in extended and updated lists -/

theorem getElem?_snoc_some {α : Type} (l : List α) (a e : α) (j : Nat) :
    (l ++ [a])[j]? = some e ↔ l[j]? = some e ∨ (j = l.length ∧ a = e) := by
  rcases Nat.lt_trichotomy j l.length with h | h | h
  · rw [List.getElem?_append_left h]
    constructor
    · exact Or.inl
    · rintro (h1 | ⟨h1, _⟩)
      · exact h1
      · omega
  · subst h
    simp
  · rw [List.getElem?_append_right (by omega)]
    have h1 : l[j]? = none := List.getElem?_eq_none (by omega)
    have h2 : ([a] : List α)[j - l.length]? = none :=
      List.getElem?_eq_none (by simp; omega)
    simp [h1, h2]
    omega

theorem getElem?_set_some {α : Type} (l : List α) (a e : α) (i j : Nat) (hi : i < l.length) :
    (l.set i a)[j]? = some e ↔ (j = i ∧ a = e) ∨ (j ≠ i ∧ l[j]? = some e) := by
  rw [List.getElem?_set]
  by_cases hij : i = j
  · subst hij
    simp [hi]
  · have hji : j ≠ i := fun h => hij h.symm
    simp [hij, hji]

theorem lt_length_of_getElem? {α : Type} (l : List α) (e : α) (i : Nat) (h : l[i]? = some e) :
    i < l.length := by
  rw [List.getElem?_eq_some] at h
  exact h.1

theorem cellAt_eq_some (m : Mem) (p : Nat) (c : Cell) :
    m.cellAt p = some c ↔ ∃ q, p = q + 1 ∧ m.heap[q]? = some c := by
  cases p with
  | zero => simp [Mem.cellAt]
  | succ q => simp [Mem.cellAt]

theorem cellAt_bound (m : Mem) (p : Nat) (c : Cell) (h : m.cellAt p = some c) :
    1 ≤ p ∧ p ≤ m.heap.length := by
  obtain ⟨q, rfl, hq⟩ := (cellAt_eq_some m p c).1 h
  have := lt_length_of_getElem? _ _ _ hq
  omega

theorem cellAt_eq_none (m : Mem) (p : Nat) : m.cellAt p = none ↔ p = 0 ∨ m.heap.length < p := by
  cases p with
  | zero => simp [Mem.cellAt]
  | succ q => simp [Mem.cellAt]; omega

/-! ## The invariant holds in every reachable state -/

theorem construct_eq (P : Prog) (s : Int) :
    P.construct s =
      ⟨⟨P.mem.heap ++ [⟨s, false⟩], P.mem.log ++ [HeapEv.alloc (P.mem.heap.length + 1)],
          P.mem.out ++ [Msg.constructed s]⟩,
        P.objs ++ [⟨⟨P.mem.heap.length + 1⟩, true⟩]⟩ := rfl

theorem cellAt_construct (P : Prog) (s : Int) (p : Nat) (c : Cell) :
    (P.construct s).mem.cellAt p = some c ↔
      P.mem.cellAt p = some c ∨ (p = P.mem.heap.length + 1 ∧ c = ⟨s, false⟩) := by
  rw [cellAt_eq_some, cellAt_eq_some, construct_eq]
  constructor
  · rintro ⟨q, rfl, hq⟩
    rcases (getElem?_snoc_some _ _ _ _).1 hq with h | ⟨h1, h2⟩
    · exact Or.inl ⟨q, rfl, h⟩
    · exact Or.inr ⟨by omega, h2.symm⟩
  · rintro (⟨q, rfl, hq⟩ | ⟨rfl, rfl⟩)
    · exact ⟨q, rfl, (getElem?_snoc_some _ _ _ _).2 (Or.inl hq)⟩
    · exact ⟨P.mem.heap.length, rfl, (getElem?_snoc_some _ _ _ _).2 (Or.inr ⟨rfl, rfl⟩)⟩

theorem inv_construct (P : Prog) (s : Int) (h : P.Inv) : (P.construct s).Inv := by
  have hobj : ∀ (i : Nat) (e : Inst), (P.construct s).objs[i]? = some e ↔
      P.objs[i]? = some e ∨ (i = P.objs.length ∧ (⟨⟨P.mem.heap.length + 1⟩, true⟩ : Inst) = e) :=
    fun i e => getElem?_snoc_some _ _ _ _
  have hold : ∀ (i : Nat) (e : Inst), P.objs[i]? = some e → e.live = true →
      e.obj.d_s ≠ P.mem.heap.length + 1 := by
    intro i e hi hl heq
    have h0 : e.obj.d_s ≠ 0 := by omega
    obtain ⟨c, hc, _⟩ := h.owned i e hi hl h0
    have := cellAt_bound _ _ _ hc
    omega
  refine ⟨?_, ?_, ?_, ?_⟩
  · intro i e hi hl h0
    rcases (hobj i e).1 hi with h1 | ⟨_, rfl⟩
    · obtain ⟨c, hc, hf⟩ := h.owned i e h1 hl h0
      exact ⟨c, (cellAt_construct P s _ c).2 (Or.inl hc), hf⟩
    · exact ⟨⟨s, false⟩, (cellAt_construct P s _ _).2 (Or.inr ⟨rfl, rfl⟩), rfl⟩
  · intro i j ei ej hi hj hli hlj h0 heq
    rcases (hobj i ei).1 hi with h1 | ⟨h1, rfl⟩ <;>
      rcases (hobj j ej).1 hj with h2 | ⟨h2, rfl⟩
    · exact h.noAlias i j ei ej h1 h2 hli hlj h0 heq
    · exact absurd heq (hold i ei h1 hli)
    · exact absurd heq.symm (hold j ej h2 hlj)
    · omega
  · intro p c hc hf
    rcases (cellAt_construct P s p c).1 hc with h1 | ⟨rfl, rfl⟩
    · obtain ⟨i, e, hi, hl, hd⟩ := h.noLeak p c h1 hf
      exact ⟨i, e, (hobj i e).2 (Or.inl hi), hl, hd⟩
    · exact ⟨P.objs.length, ⟨⟨P.mem.heap.length + 1⟩, true⟩, (hobj _ _).2 (Or.inr ⟨rfl, rfl⟩),
        rfl, rfl⟩
  · intro p
    obtain ⟨ha, hr⟩ := h.logOK p
    constructor
    · simp only [construct_eq, List.count_append, ha, List.length_append, List.length_singleton]
      by_cases hp : p = P.mem.heap.length + 1
      · subst hp
        simp [List.count_singleton]
      · have : ¬ (P.mem.heap.length + 1 = p) := fun h => hp h.symm
        simp only [List.count_singleton, beq_iff_eq, HeapEv.alloc.injEq, this, if_false,
          Nat.add_zero]
        by_cases h1 : 1 ≤ p ∧ p ≤ P.mem.heap.length
        · have h2 : 1 ≤ p ∧ p ≤ P.mem.heap.length + 1 := by omega
          simp [h1, h2]
        · have h2 : ¬ (1 ≤ p ∧ p ≤ P.mem.heap.length + 1) := by omega
          simp only [h1, h2, if_false]
    · have hlog : (P.construct s).mem.log = P.mem.log ++ [HeapEv.alloc (P.mem.heap.length + 1)] :=
        rfl
      rw [hlog, List.count_append, hr]
      simp only [List.count_singleton]
      by_cases hp : p = P.mem.heap.length + 1
      · subst hp
        have h1 : P.mem.cellAt (P.mem.heap.length + 1) = none :=
          (cellAt_eq_none _ _).2 (Or.inr (by omega))
        have h2 := (cellAt_construct P s (P.mem.heap.length + 1) ⟨s, false⟩).2
          (Or.inr ⟨rfl, rfl⟩)
        simp [h1, h2]
      · have h3 : (P.construct s).mem.cellAt p = P.mem.cellAt p := by
          cases hc : P.mem.cellAt p with
          | some c => exact (cellAt_construct P s p c).2 (Or.inl hc)
          | none =>
            cases hc2 : (P.construct s).mem.cellAt p with
            | none => rfl
            | some c =>
              rcases (cellAt_construct P s p c).1 hc2 with h4 | ⟨h4, _⟩
              · rw [hc] at h4; cases h4
              · exact absurd h4 hp
        rw [h3]
        have h5 : ¬ (P.mem.heap.length + 1 = p) := fun h => hp h.symm
        simp [h5]

theorem moveFrom_ok (P Q : Prog) (i : Nat) (h : P.moveFrom i = .ok Q) :
    ∃ e c, P.objs[i]? = some e ∧ e.live = true ∧ P.mem.cellAt e.obj.d_s = some c ∧
      c.freed = false ∧
      Q = ⟨P.mem.print (Msg.moveConstructed c.val), P.objs.set i ⟨⟨0⟩, true⟩ ++ [⟨e.obj, true⟩]⟩ := by
  unfold Prog.moveFrom at h
  cases he : P.objs[i]? with
  | none => simp [he] at h
  | some e =>
    rw [he] at h
    cases hl : e.live with
    | false => simp [hl] at h
    | true =>
      cases hd : P.mem.deref e.obj.d_s with
      | error f => simp [hl, NoCopy.moveCtor, hd] at h
      | ok v =>
        obtain ⟨c, hc, hf, rfl⟩ := (deref_ok_iff _ _ _).1 hd
        simp only [hl, if_true, moveCtor_live _ _ c hc hf, Except.ok.injEq] at h
        exact ⟨e, c, rfl, hl, hc, hf, h.symm⟩

theorem inv_moveFrom (P Q : Prog) (i : Nat) (h : P.Inv) (hQ : P.moveFrom i = .ok Q) : Q.Inv := by
  obtain ⟨e, c, he, hl, hc, hf, rfl⟩ := moveFrom_ok P Q i hQ
  have hi : i < P.objs.length := lt_length_of_getElem? _ _ _ he
  have he0 : e.obj.d_s ≠ 0 := cellAt_ne_zero _ _ _ hc
  have hobj : ∀ (j : Nat) (x : Inst),
      (P.objs.set i ⟨⟨0⟩, true⟩ ++ [⟨e.obj, true⟩])[j]? = some x ↔
        (j = i ∧ (⟨⟨0⟩, true⟩ : Inst) = x) ∨ (j ≠ i ∧ P.objs[j]? = some x) ∨
          (j = P.objs.length ∧ (⟨e.obj, true⟩ : Inst) = x) := by
    intro j x
    rw [getElem?_snoc_some, getElem?_set_some _ _ _ _ _ hi, List.length_set, or_assoc]
  refine ⟨?_, ?_, ?_, ?_⟩
  · intro j x hj hlx h0
    show ∃ c, (P.mem.print _).cellAt x.obj.d_s = some c ∧ c.freed = false
    rw [cellAt_print]
    rcases (hobj j x).1 hj with ⟨_, rfl⟩ | ⟨_, h1⟩ | ⟨_, rfl⟩
    · exact absurd rfl h0
    · exact h.owned j x h1 hlx h0
    · exact ⟨c, hc, hf⟩
  · intro j k x y hj hk hlx hly h0 heq
    rcases (hobj j x).1 hj with ⟨_, rfl⟩ | ⟨hji, h1⟩ | ⟨hjn, rfl⟩
    · exact absurd rfl h0
    · rcases (hobj k y).1 hk with ⟨_, rfl⟩ | ⟨hki, h2⟩ | ⟨hkn, rfl⟩
      · exact absurd heq h0
      · exact h.noAlias j k x y h1 h2 hlx hly h0 heq
      · exact absurd (h.noAlias j i x e h1 he hlx hl h0 heq) hji
    · rcases (hobj k y).1 hk with ⟨_, rfl⟩ | ⟨hki, h2⟩ | ⟨hkn, rfl⟩
      · exact absurd heq h0
      · exact absurd (h.noAlias k i y e h2 he hly hl (by rw [← heq]; exact h0) heq.symm) hki
      · omega
  · intro p c1 hc1 hf1
    have hc2 : P.mem.cellAt p = some c1 := by
      rw [← cellAt_print P.mem (Msg.moveConstructed c.val)]; exact hc1
    obtain ⟨k, y, hk, hly, hd⟩ := h.noLeak p c1 hc2 hf1
    by_cases hki : k = i
    · subst hki
      rw [he] at hk
      cases hk
      exact ⟨P.objs.length, ⟨e.obj, true⟩, (hobj _ _).2 (Or.inr (Or.inr ⟨rfl, rfl⟩)), rfl, hd⟩
    · exact ⟨k, y, (hobj _ _).2 (Or.inr (Or.inl ⟨hki, hk⟩)), hly, hd⟩
  · intro p
    have := h.logOK p
    simpa [Mem.print, Mem.cellAt] using this

theorem dtor_ok (x : NoCopy) (m m1 : Mem) (h : x.dtor m = .ok m1) :
    (x.d_s = 0 ∧ m1 = m) ∨
    ∃ c, m.cellAt x.d_s = some c ∧ c.freed = false ∧
      m1 = ⟨m.heap.set (x.d_s - 1) ⟨c.val, true⟩, m.log ++ [HeapEv.release x.d_s],
        m.out ++ [Msg.beingDestroyed c.val]⟩ := by
  by_cases h0 : x.d_s = 0
  · left
    simp [NoCopy.dtor, h0, Mem.deleteInt] at h
    exact ⟨h0, h.symm⟩
  · right
    cases hd : m.deref x.d_s with
    | error f => simp [NoCopy.dtor, h0, hd] at h
    | ok v =>
      obtain ⟨c, hc, hf, rfl⟩ := (deref_ok_iff _ _ _).1 hd
      rw [dtor_live x m c hc hf] at h
      exact ⟨c, hc, hf, (Except.ok.inj h).symm⟩

theorem destroy_ok (P Q : Prog) (i : Nat) (h : P.destroy i = .ok Q) :
    ∃ e m1, P.objs[i]? = some e ∧ e.live = true ∧ e.obj.dtor P.mem = .ok m1 ∧
      Q = ⟨m1, P.objs.set i ⟨e.obj, false⟩⟩ := by
  unfold Prog.destroy at h
  cases he : P.objs[i]? with
  | none => simp [he] at h
  | some e =>
    rw [he] at h
    cases hl : e.live with
    | false => simp [hl] at h
    | true =>
      cases hd : e.obj.dtor P.mem with
      | error f => simp [hl, hd] at h
      | ok m1 =>
        simp only [hl, if_true, hd, Except.ok.injEq] at h
        exact ⟨e, m1, rfl, hl, hd, h.symm⟩

theorem cellAt_set (m m1 : Mem) (p : Nat) (c0 c1 : Cell) (hp : m.cellAt p = some c0)
    (hm : m1.heap = m.heap.set (p - 1) c1) (q : Nat) (e : Cell) :
    m1.cellAt q = some e ↔ (q = p ∧ c1 = e) ∨ (q ≠ p ∧ m.cellAt q = some e) := by
  obtain ⟨r, rfl, hr⟩ := (cellAt_eq_some _ _ _).1 hp
  have hlt := lt_length_of_getElem? _ _ _ hr
  rw [cellAt_eq_some, cellAt_eq_some, hm]
  simp only [Nat.add_sub_cancel]
  constructor
  · rintro ⟨t, rfl, ht⟩
    rcases (getElem?_set_some _ _ _ _ _ hlt).1 ht with ⟨h1, h2⟩ | ⟨h1, h2⟩
    · left
      exact ⟨by omega, h2⟩
    · right
      exact ⟨by omega, t, rfl, h2⟩
  · rintro (⟨h1, h2⟩ | ⟨h1, t, rfl, h2⟩)
    · exact ⟨r, h1, (getElem?_set_some _ _ _ _ _ hlt).2 (Or.inl ⟨rfl, h2⟩)⟩
    · exact ⟨t, rfl, (getElem?_set_some _ _ _ _ _ hlt).2 (Or.inr ⟨by omega, h2⟩)⟩

theorem cellAt_set_ne (m m1 : Mem) (p : Nat) (c0 c1 : Cell) (hp : m.cellAt p = some c0)
    (hm : m1.heap = m.heap.set (p - 1) c1) (q : Nat) (hq : q ≠ p) :
    m1.cellAt q = m.cellAt q := by
  apply Option.ext
  intro x
  simp only [Option.mem_def]
  rw [cellAt_set m m1 p c0 c1 hp hm q x]
  simp [hq]

theorem inv_destroy (P Q : Prog) (i : Nat) (h : P.Inv) (hQ : P.destroy i = .ok Q) : Q.Inv := by
  obtain ⟨e, m1, he, hl, hd, rfl⟩ := destroy_ok P Q i hQ
  have hi : i < P.objs.length := lt_length_of_getElem? _ _ _ he
  have hobj : ∀ (j : Nat) (x : Inst), x.live = true →
      (P.objs.set i ⟨e.obj, false⟩)[j]? = some x → j ≠ i ∧ P.objs[j]? = some x := by
    intro j x hlx hj
    rcases (getElem?_set_some _ _ _ _ _ hi).1 hj with ⟨_, rfl⟩ | h1
    · cases hlx
    · exact h1
  have hkeep : ∀ (j : Nat) (x : Inst), j ≠ i → P.objs[j]? = some x →
      (P.objs.set i ⟨e.obj, false⟩)[j]? = some x :=
    fun j x h1 h2 => (getElem?_set_some _ _ _ _ _ hi).2 (Or.inr ⟨h1, h2⟩)
  have hna : ∀ (j k : Nat) (x y : Inst), (P.objs.set i ⟨e.obj, false⟩)[j]? = some x →
      (P.objs.set i ⟨e.obj, false⟩)[k]? = some y → x.live = true → y.live = true →
      x.obj.d_s ≠ 0 → x.obj.d_s = y.obj.d_s → j = k := by
    intro j k x y hj hk hlx hly h0 heq
    exact h.noAlias j k x y (hobj j x hlx hj).2 (hobj k y hly hk).2 hlx hly h0 heq
  rcases dtor_ok _ _ _ hd with ⟨h0, rfl⟩ | ⟨c, hc, hf, rfl⟩
  · refine ⟨?_, hna, ?_, h.logOK⟩
    · intro j x hj hlx hx0
      exact h.owned j x (hobj j x hlx hj).2 hlx hx0
    · intro p c hc hf
      obtain ⟨k, y, hk, hly, hdy⟩ := h.noLeak p c hc hf
      have hki : k ≠ i := by
        rintro rfl
        rw [he] at hk
        cases hk
        exact cellAt_ne_zero _ _ _ hc (hdy ▸ h0)
      exact ⟨k, y, hkeep k y hki hk, hly, hdy⟩
  · have hcell := cellAt_set P.mem
      ⟨P.mem.heap.set (e.obj.d_s - 1) ⟨c.val, true⟩, P.mem.log ++ [HeapEv.release e.obj.d_s],
        P.mem.out ++ [Msg.beingDestroyed c.val]⟩ e.obj.d_s c ⟨c.val, true⟩ hc rfl
    have hcne := cellAt_set_ne P.mem
      ⟨P.mem.heap.set (e.obj.d_s - 1) ⟨c.val, true⟩, P.mem.log ++ [HeapEv.release e.obj.d_s],
        P.mem.out ++ [Msg.beingDestroyed c.val]⟩ e.obj.d_s c ⟨c.val, true⟩ hc rfl
    have he0 : e.obj.d_s ≠ 0 := cellAt_ne_zero _ _ _ hc
    refine ⟨?_, hna, ?_, ?_⟩
    · intro j x hj hlx hx0
      obtain ⟨hji, hjo⟩ := hobj j x hlx hj
      obtain ⟨c1, hc1, hf1⟩ := h.owned j x hjo hlx hx0
      have hne : x.obj.d_s ≠ e.obj.d_s := fun heq =>
        hji (h.noAlias j i x e hjo he hlx hl hx0 heq)
      exact ⟨c1, (hcell _ _).2 (Or.inr ⟨hne, hc1⟩), hf1⟩
    · intro p c1 hc1 hf1
      rcases (hcell p c1).1 hc1 with ⟨_, rfl⟩ | ⟨hpe, hc2⟩
      · cases hf1
      · obtain ⟨k, y, hk, hly, hdy⟩ := h.noLeak p c1 hc2 hf1
        have hki : k ≠ i := by
          rintro rfl
          rw [he] at hk
          cases hk
          exact hpe hdy.symm
        exact ⟨k, y, hkeep k y hki hk, hly, hdy⟩
    · intro p
      obtain ⟨ha, hr⟩ := h.logOK p
      constructor
      · simp [List.count_append, ha, List.length_set, List.count_singleton]
      · simp only [List.count_append, hr, List.count_singleton, beq_iff_eq,
          HeapEv.release.injEq]
        by_cases hp : p = e.obj.d_s
        · subst hp
          rw [(hcell _ _).2 (Or.inl ⟨rfl, rfl⟩), hc]
          simp [hf]
        · rw [hcne p hp]
          have : ¬ (e.obj.d_s = p) := fun h => hp h.symm
          simp [this]

theorem inv_empty : Prog.empty.Inv := by
  refine ⟨?_, ?_, ?_, ?_⟩
  · intro i e hi
    simp [Prog.empty] at hi
  · intro i j ei ej hi
    simp [Prog.empty] at hi
  · intro p c hc
    have := cellAt_bound _ _ _ hc
    simp [Prog.empty, Mem.empty] at this
    omega
  · intro p
    simp [Prog.empty, Mem.empty, Mem.cellAt]
    cases p <;> simp [Mem.cellAt]

theorem inv_step (P Q : Prog) (o : Op) (h : P.Inv) (hQ : P.step o = .ok Q) : Q.Inv := by
  cases o with
  | construct s =>
    simp only [Prog.step, Except.ok.injEq] at hQ
    subst hQ
    exact inv_construct P s h
  | moveFrom i => exact inv_moveFrom P Q i h hQ
  | destroy i => exact inv_destroy P Q i h hQ

theorem inv_run (os : List Op) (P Q : Prog) (h : P.Inv) (hQ : P.run os = .ok Q) : Q.Inv := by
  induction os generalizing P with
  | nil =>
    simp only [Prog.run, Except.ok.injEq] at hQ
    subst hQ
    exact h
  | cons o os ih =>
    simp only [Prog.run] at hQ
    cases hs : P.step o with
    | error f => simp [hs] at hQ
    | ok R =>
      rw [hs] at hQ
      exact ih R (inv_step P R o h hs) hQ

theorem isEmpty_iff (x : NoCopy) : x.isEmpty = true ↔ x.d_s = 0 := by
  simp [NoCopy.isEmpty]

theorem isEmpty_false_iff (x : NoCopy) : x.isEmpty = false ↔ x.d_s ≠ 0 := by
  simp [NoCopy.isEmpty]

theorem getS_empty (x : NoCopy) (m : Mem) (h : x.d_s = 0) : x.getS m = .error .nullDeref := by
  simp [NoCopy.getS, h, deref_null]

theorem releaseCount_snoc_release (l : List HeapEv) (p : Nat) :
    releaseCount (l ++ [HeapEv.release p]) = releaseCount l + 1 := by
  simp [releaseCount, List.countP_append]

theorem releaseCount_snoc_alloc (l : List HeapEv) (p : Nat) :
    releaseCount (l ++ [HeapEv.alloc p]) = releaseCount l := by
  simp [releaseCount, List.countP_append]

theorem allocCount_snoc_alloc (l : List HeapEv) (p : Nat) :
    allocCount (l ++ [HeapEv.alloc p]) = allocCount l + 1 := by
  simp [allocCount, List.countP_append]

/-! ## The claims about single objects and reachable states -/

/-- C1: for every int `v` and every machine state, the object made by `NoCopy(v)` is
non-empty and `getS()` on it returns exactly `v`. -/
theorem ctor_getS (v : Int) (m : Mem) :
    (NoCopy.ctor v m).1.isEmpty = false ∧
    (NoCopy.ctor v m).1.getS (NoCopy.ctor v m).2 = .ok v := by
  constructor
  · simp [NoCopy.ctor, NoCopy.isEmpty, Mem.newInt, Mem.print]
  · simp [NoCopy.ctor, NoCopy.getS, Mem.newInt, Mem.print, Mem.deref, Mem.cellAt]

/-- C2: for every int `v`, move-constructing `dst` from `src = NoCopy(v)` succeeds, `dst`
holds the very slot `src` held, the heap and the record of allocator calls are what the
constructor left (no slot is allocated, no value copied), `dst.getS()` is `v`, and `src`
is left empty with a null slot pointer. -/
theorem move_adopts_slot (v : Int) (m : Mem) :
    ∃ src dst src1 m1, createThenMove v m = .ok (src, dst, src1, m1) ∧
      src = (NoCopy.ctor v m).1 ∧ src.d_s ≠ 0 ∧ dst.d_s = src.d_s ∧
      m1.heap = (NoCopy.ctor v m).2.heap ∧ m1.log = (NoCopy.ctor v m).2.log ∧
      dst.getS m1 = .ok v ∧
      src1.d_s = 0 ∧ src1.isEmpty = true := by
  refine ⟨_, _, _, _, createThenMove_eq v m, ?_⟩
  simp [ctor_eq, NoCopy.getS, Mem.deref, Mem.cellAt, NoCopy.isEmpty]

/-- C3: in every state reached from the empty program state, `getS()` on a live object
returns a value exactly when the object is non-empty: on an empty object it faults with
a null dereference (in whatever machine state it is called), and on a non-empty object
it returns the value stored in the slot the object holds. -/
theorem getS_iff_nonempty (os : List Op) (P : Prog) (h : Prog.empty.run os = .ok P)
    (i : Nat) (e : Inst) (he : P.objs[i]? = some e) (hl : e.live = true) :
    (e.obj.isEmpty = true → ∀ m, e.obj.getS m = .error .nullDeref) ∧
    (e.obj.isEmpty = false →
      ∃ c, P.mem.cellAt e.obj.d_s = some c ∧ c.freed = false ∧ e.obj.getS P.mem = .ok c.val) ∧
    ((∃ v, e.obj.getS P.mem = .ok v) ↔ e.obj.isEmpty = false) := by
  have hinv := inv_run os Prog.empty P inv_empty h
  have h1 : e.obj.isEmpty = true → ∀ m, e.obj.getS m = .error .nullDeref :=
    fun h0 m => getS_empty e.obj m ((isEmpty_iff _).1 h0)
  have h2 : e.obj.isEmpty = false →
      ∃ c, P.mem.cellAt e.obj.d_s = some c ∧ c.freed = false ∧ e.obj.getS P.mem = .ok c.val := by
    intro h0
    obtain ⟨c, hc, hf⟩ := hinv.owned i e he hl ((isEmpty_false_iff _).1 h0)
    exact ⟨c, hc, hf, deref_live _ _ c hc hf⟩
  refine ⟨h1, h2, ?_, ?_⟩
  · rintro ⟨v, hv⟩
    cases h0 : e.obj.isEmpty with
    | false => rfl
    | true =>
      rw [h1 h0 P.mem] at hv
      cases hv
  · intro h0
    obtain ⟨c, _, _, hg⟩ := h2 h0
    exact ⟨c.val, hg⟩

theorem getS_iff_nonempty_witness :
    Prog.empty.run [Op.construct 123, Op.moveFrom 0] = .ok afterMoveProg ∧
    afterMoveProg.objs[1]? = some ⟨⟨1⟩, true⟩ ∧
    (((⟨1⟩ : NoCopy).isEmpty = true → ∀ m, (⟨1⟩ : NoCopy).getS m = .error .nullDeref) ∧
     ((⟨1⟩ : NoCopy).isEmpty = false →
        ∃ c, afterMoveProg.mem.cellAt 1 = some c ∧ c.freed = false ∧
          (⟨1⟩ : NoCopy).getS afterMoveProg.mem = .ok c.val) ∧
     ((∃ v, (⟨1⟩ : NoCopy).getS afterMoveProg.mem = .ok v) ↔ (⟨1⟩ : NoCopy).isEmpty = false)) :=
  ⟨by decide, by decide,
    getS_iff_nonempty [Op.construct 123, Op.moveFrom 0] afterMoveProg (by decide) 1
      ⟨⟨1⟩, true⟩ (by decide) rfl⟩

/-- C4: in every state reached from the empty program state by constructions from an
int, move constructions and destructions, no two live objects hold the same non-null
slot, and every non-null slot held by a live object is allocated and not released. -/
theorem single_owner (os : List Op) (P : Prog) (h : Prog.empty.run os = .ok P) :
    P.NoAlias ∧ P.OwnedLive := by
  have hinv := inv_run os Prog.empty P inv_empty h
  exact ⟨hinv.noAlias, hinv.owned⟩

theorem single_owner_witness :
    Prog.empty.run [Op.construct 123, Op.moveFrom 0] = .ok afterMoveProg ∧
    afterMoveProg.NoAlias ∧ afterMoveProg.OwnedLive :=
  ⟨by decide, single_owner [Op.construct 123, Op.moveFrom 0] afterMoveProg (by decide)⟩

/-- C5: in every state reached from the empty program state, destroying a live object
succeeds; if the object is empty nothing changes (no release, no output, and this holds
in whatever machine state the destructor runs), and if it is non-empty exactly one
release is recorded, that of its own slot, which is then marked released while every
other cell is untouched.  After `src` is moved into `dst` and both are destroyed, the
slot has been released exactly once. -/
theorem dtor_releases_iff_nonempty (os : List Op) (P : Prog) (h : Prog.empty.run os = .ok P)
    (i : Nat) (e : Inst) (he : P.objs[i]? = some e) (hl : e.live = true) :
    (∃ Q, P.destroy i = .ok Q ∧
      (e.obj.isEmpty = true → Q.mem = P.mem) ∧
      (e.obj.isEmpty = false →
        Q.mem.log = P.mem.log ++ [HeapEv.release e.obj.d_s] ∧
        P.mem.released e.obj.d_s = false ∧ Q.mem.released e.obj.d_s = true ∧
        ∀ q, q ≠ e.obj.d_s → Q.mem.cellAt q = P.mem.cellAt q) ∧
      releaseCount Q.mem.log = releaseCount P.mem.log + (if e.obj.isEmpty then 0 else 1)) ∧
    (e.obj.isEmpty = true → ∀ m, e.obj.dtor m = .ok m) ∧
    (∀ v m, ∃ m1, moveThenDestroyBoth v m = .ok m1 ∧
      m1.log = m.log ++ [HeapEv.alloc (m.heap.length + 1), HeapEv.release (m.heap.length + 1)] ∧
      m1.released (m.heap.length + 1) = true ∧
      releaseCount m1.log = releaseCount m.log + 1) := by
  have hinv := inv_run os Prog.empty P inv_empty h
  refine ⟨?_, ?_, ?_⟩
  · cases h0 : e.obj.isEmpty with
    | true =>
      have hd : e.obj.d_s = 0 := (isEmpty_iff _).1 h0
      have hx : e.obj = ⟨0⟩ := by
        cases hx : e.obj
        simp [hx] at hd
        simp [hd]
      refine ⟨⟨P.mem, P.objs.set i ⟨e.obj, false⟩⟩, ?_, fun _ => rfl, ?_, ?_⟩
      · simp only [Prog.destroy, he, hl, if_true, hx, dtor_empty]
      · intro hc
        cases hc
      · simp
    | false =>
      obtain ⟨c, hc, hf⟩ := hinv.owned i e he hl ((isEmpty_false_iff _).1 h0)
      refine ⟨⟨⟨P.mem.heap.set (e.obj.d_s - 1) ⟨c.val, true⟩,
        P.mem.log ++ [HeapEv.release e.obj.d_s], P.mem.out ++ [Msg.beingDestroyed c.val]⟩,
        P.objs.set i ⟨e.obj, false⟩⟩, ?_, ?_, ?_, ?_⟩
      · simp only [Prog.destroy, he, hl, if_true, dtor_live _ _ c hc hf]
      · intro hc
        cases hc
      · intro _
        refine ⟨rfl, ?_, ?_, ?_⟩
        · simp [Mem.released, hc, hf]
        · have := (cellAt_set P.mem ⟨P.mem.heap.set (e.obj.d_s - 1) ⟨c.val, true⟩,
            P.mem.log ++ [HeapEv.release e.obj.d_s], P.mem.out ++ [Msg.beingDestroyed c.val]⟩
            e.obj.d_s c ⟨c.val, true⟩ hc rfl e.obj.d_s ⟨c.val, true⟩).2 (Or.inl ⟨rfl, rfl⟩)
          simp [Mem.released, this]
        · intro q hq
          exact cellAt_set_ne P.mem _ e.obj.d_s c ⟨c.val, true⟩ hc rfl q hq
      · simp [releaseCount_snoc_release]
  · intro h0 m
    have hd : e.obj.d_s = 0 := (isEmpty_iff _).1 h0
    simp [NoCopy.dtor, hd, Mem.deleteInt]
  · intro v m
    refine ⟨_, moveThenDestroyBoth_eq v m, rfl, ?_, ?_⟩
    · simp [Mem.released, Mem.cellAt]
    · simp [releaseCount, List.countP_append, List.countP_cons]

theorem dtor_releases_iff_nonempty_witness :
    Prog.empty.run [Op.construct 123, Op.moveFrom 0] = .ok afterMoveProg ∧
    afterMoveProg.objs[1]? = some ⟨⟨1⟩, true⟩ ∧
    ((∃ Q, afterMoveProg.destroy 1 = .ok Q ∧
      ((⟨1⟩ : NoCopy).isEmpty = true → Q.mem = afterMoveProg.mem) ∧
      ((⟨1⟩ : NoCopy).isEmpty = false →
        Q.mem.log = afterMoveProg.mem.log ++ [HeapEv.release 1] ∧
        afterMoveProg.mem.released 1 = false ∧ Q.mem.released 1 = true ∧
        ∀ q, q ≠ 1 → Q.mem.cellAt q = afterMoveProg.mem.cellAt q) ∧
      releaseCount Q.mem.log =
        releaseCount afterMoveProg.mem.log + (if (⟨1⟩ : NoCopy).isEmpty then 0 else 1)) ∧
    ((⟨1⟩ : NoCopy).isEmpty = true → ∀ m, (⟨1⟩ : NoCopy).dtor m = .ok m) ∧
    (∀ v m, ∃ m1, moveThenDestroyBoth v m = .ok m1 ∧
      m1.log = m.log ++ [HeapEv.alloc (m.heap.length + 1), HeapEv.release (m.heap.length + 1)] ∧
      m1.released (m.heap.length + 1) = true ∧
      releaseCount m1.log = releaseCount m.log + 1)) :=
  ⟨by decide, by decide,
    dtor_releases_iff_nonempty [Op.construct 123, Op.moveFrom 0] afterMoveProg (by decide) 1
      ⟨⟨1⟩, true⟩ (by decide) rfl⟩

/-- C6: for every int `v` and every machine state, `NoCopy a(v); NoCopy b(move(a));
NoCopy c(move(b));` succeeds; of the three objects only `c` is non-empty and
`c.getS()` is `v`; `a` and `b` are empty; exactly one slot was allocated (the heap has
one more cell, one allocation and no release were recorded) and `c` holds that slot. -/
theorem chained_transfer (v : Int) (m : Mem) :
    ∃ a b c m1, chain v m = .ok (a, b, c, m1) ∧
      a.isEmpty = true ∧ b.isEmpty = true ∧ c.isEmpty = false ∧
      c.getS m1 = .ok v ∧ c.d_s = m.heap.length + 1 ∧
      m1.heap = m.heap ++ [⟨v, false⟩] ∧
      m1.log = m.log ++ [HeapEv.alloc (m.heap.length + 1)] ∧
      allocCount m1.log = allocCount m.log + 1 ∧
      releaseCount m1.log = releaseCount m.log := by
  refine ⟨_, _, _, _, chain_eq v m, ?_⟩
  simp [NoCopy.isEmpty, NoCopy.getS, Mem.deref, Mem.cellAt, allocCount_snoc_alloc,
    releaseCount_snoc_alloc]

/-- C8: move-constructing from an empty source faults with a null dereference in every
machine state and yields no object; in particular a second move from the same source,
`NoCopy a(v); NoCopy b(move(a)); NoCopy c(move(a));`, faults for every int `v`. -/
theorem move_from_empty_faults (x : NoCopy) (h : x.isEmpty = true) :
    (∀ m, NoCopy.moveCtor x m = .error .nullDeref) ∧
    (∀ v m, moveTwice v m = .error .nullDeref) := by
  have hd : x.d_s = 0 := (isEmpty_iff _).1 h
  refine ⟨fun m => ?_, moveTwice_eq⟩
  simp [NoCopy.moveCtor, hd, deref_null]

theorem move_from_empty_faults_witness :
    (⟨0⟩ : NoCopy).isEmpty = true ∧
    ((∀ m, NoCopy.moveCtor ⟨0⟩ m = .error .nullDeref) ∧
     (∀ v m, moveTwice v m = .error .nullDeref)) :=
  ⟨rfl, move_from_empty_faults ⟨0⟩ rfl⟩

/-! ## The vector block: allocations and releases balance -/

theorem sameHeap_refl (m : Mem) : SameHeap m m := ⟨rfl, rfl, rfl, rfl⟩

theorem sameHeap_trans (m m1 m2 : Mem) (h1 : SameHeap m m1) (h2 : SameHeap m1 m2) :
    SameHeap m m2 :=
  ⟨h2.1.trans h1.1, h2.2.1.trans h1.2.1, h2.2.2.1.trans h1.2.2.1, h2.2.2.2.trans h1.2.2.2⟩

theorem sameHeap_print_move (m : Mem) (v : Int) :
    SameHeap m (m.print (Msg.moveConstructed v)) := by
  refine ⟨rfl, rfl, ?_, ?_⟩
  · simp [Mem.print, constructedCount, List.countP_append]
  · simp [Mem.print, destroyedCount, List.countP_append]

theorem cellAt_of_heap_eq (m m1 : Mem) (h : m1.heap = m.heap) (p : Nat) :
    m1.cellAt p = m.cellAt p := by
  cases p with
  | zero => rfl
  | succ q => simp [Mem.cellAt, h]

theorem allLive_sameHeap (m m1 : Mem) (vec : List NoCopy) (h : SameHeap m m1)
    (hl : AllLive m vec) : AllLive m1 vec := by
  intro x hx
  rw [cellAt_of_heap_eq m m1 h.1]
  exact hl x hx

theorem moveAll_live (vec : List NoCopy) :
    ∀ m, AllLive m vec →
      ∃ m1, moveAll m vec = .ok (vec, vec.map (fun _ => ⟨0⟩), m1) ∧ SameHeap m m1 := by
  induction vec with
  | nil => exact fun m _ => ⟨m, rfl, sameHeap_refl m⟩
  | cons x xs ih =>
    intro m hl
    obtain ⟨c, hc, hf⟩ := hl x (List.mem_cons_self x xs)
    have hs := sameHeap_print_move m c.val
    have hl1 : AllLive (m.print (Msg.moveConstructed c.val)) xs :=
      allLive_sameHeap m _ xs hs (fun y hy => hl y (List.mem_cons_of_mem x hy))
    obtain ⟨m1, h1, hs1⟩ := ih _ hl1
    refine ⟨m1, ?_, sameHeap_trans _ _ _ hs hs1⟩
    simp [moveAll, moveCtor_live x m c hc hf, h1]

theorem destroyAll_empty (xs : List NoCopy) (m : Mem) (h : ∀ x ∈ xs, x.d_s = 0) :
    destroyAll m xs = .ok m := by
  induction xs with
  | nil => rfl
  | cons x xs ih =>
    have hx : x = ⟨0⟩ := by
      have := h x (List.mem_cons_self x xs)
      cases x
      simpa using this
    simp only [destroyAll, hx, dtor_empty]
    exact ih (fun y hy => h y (List.mem_cons_of_mem x hy))

theorem relocate_live (m : Mem) (vec : List NoCopy) (hl : AllLive m vec) :
    ∃ m1, relocate m vec = .ok (vec, m1) ∧ SameHeap m m1 := by
  obtain ⟨m1, h1, hs1⟩ := moveAll_live vec m hl
  refine ⟨m1, ?_, hs1⟩
  have hd : destroyAll m1 (vec.map (fun _ => (⟨0⟩ : NoCopy))) = .ok m1 :=
    destroyAll_empty _ m1 (by simp)
  simp only [relocate, h1, hd]

theorem emplaceBack_live (grow : Bool) (vec : List NoCopy) (n : Int) (m : Mem)
    (hl : AllLive m vec) :
    ∃ m1, emplaceBack grow vec n m = .ok (vec ++ [⟨m.heap.length + 1⟩], m1) ∧
      m1.heap = m.heap ++ [⟨n, false⟩] ∧
      m1.log = m.log ++ [HeapEv.alloc (m.heap.length + 1)] ∧
      constructedCount m1.out = constructedCount m.out + 1 ∧
      destroyedCount m1.out = destroyedCount m.out := by
  have hmv := moveCtor_live (NoCopy.ctor n m).1 (NoCopy.ctor n m).2 ⟨n, false⟩
    (cellAt_ctor_new n m) rfl
  have hl0 : AllLive ((NoCopy.ctor n m).2.print (Msg.moveConstructed n)) vec := by
    intro x hx
    obtain ⟨c, hc, hf⟩ := hl x hx
    refine ⟨c, ?_, hf⟩
    rw [cellAt_print, cellAt_eq_some]
    obtain ⟨q, hq, hq1⟩ := (cellAt_eq_some _ _ _).1 hc
    exact ⟨q, hq, (getElem?_snoc_some _ _ _ _).2 (Or.inl hq1)⟩
  have hc0 : constructedCount ((NoCopy.ctor n m).2.print (Msg.moveConstructed n)).out =
      constructedCount m.out + 1 := by
    simp [ctor_eq, Mem.print, constructedCount, List.countP_append]
  have hd0 : destroyedCount ((NoCopy.ctor n m).2.print (Msg.moveConstructed n)).out =
      destroyedCount m.out := by
    simp [ctor_eq, Mem.print, destroyedCount, List.countP_append]
  cases grow with
  | false =>
    refine ⟨_, ?_, rfl, rfl, hc0, hd0⟩
    simp only [emplaceBack, hmv, dtor_empty]
    simp [ctor_eq]
  | true =>
    obtain ⟨m2, h2, hs2⟩ := relocate_live _ vec hl0
    refine ⟨m2, ?_, hs2.1, hs2.2.1, hs2.2.2.1.trans hc0, hs2.2.2.2.trans hd0⟩
    simp only [emplaceBack, hmv, if_true, h2, dtor_empty]
    simp [ctor_eq]

theorem getElem?_append_cons_length {α : Type} (pre : List α) (a : α) (rest : List α) :
    (pre ++ a :: rest)[pre.length]? = some a := by
  induction pre with
  | nil => simp
  | cons x xs ih => simpa using ih

theorem set_append_cons_length {α : Type} (pre : List α) (a b : α) (rest : List α) :
    (pre ++ a :: rest).set pre.length b = pre ++ b :: rest := by
  induction pre with
  | nil => rfl
  | cons x xs ih => simp [ih]

theorem fillVector_live (grow : Nat → Bool) (ns : List Int) :
    ∀ (vec : List NoCopy) (m : Mem), AllLive m vec →
      ∃ m1, fillVector grow ns vec m =
          .ok (vec ++ (List.range' (m.heap.length + 1) ns.length).map NoCopy.mk, m1) ∧
        m1.heap = m.heap ++ ns.map (fun v => ⟨v, false⟩) ∧
        m1.log = m.log ++ (List.range' (m.heap.length + 1) ns.length).map HeapEv.alloc ∧
        constructedCount m1.out = constructedCount m.out + ns.length ∧
        destroyedCount m1.out = destroyedCount m.out := by
  induction ns with
  | nil =>
    intro vec m _
    exact ⟨m, by simp [fillVector], by simp, by simp, rfl, rfl⟩
  | cons n ns ih =>
    intro vec m hl
    obtain ⟨m1, h1, hh, hlog, hc, hd⟩ := emplaceBack_live (grow vec.length) vec n m hl
    have hl1 : AllLive m1 (vec ++ [⟨m.heap.length + 1⟩]) := by
      intro x hx
      rcases List.mem_append.1 hx with hx | hx
      · obtain ⟨c, hc, hf⟩ := hl x hx
        refine ⟨c, ?_, hf⟩
        rw [cellAt_eq_some, hh]
        obtain ⟨q, hq, hq1⟩ := (cellAt_eq_some _ _ _).1 hc
        exact ⟨q, hq, (getElem?_snoc_some _ _ _ _).2 (Or.inl hq1)⟩
      · rw [List.mem_singleton] at hx
        subst hx
        refine ⟨⟨n, false⟩, ?_, rfl⟩
        rw [cellAt_eq_some, hh]
        exact ⟨m.heap.length, rfl, (getElem?_snoc_some _ _ _ _).2 (Or.inr ⟨rfl, rfl⟩)⟩
    obtain ⟨m2, h2, hh2, hlog2, hc2, hd2⟩ := ih _ m1 hl1
    have hlen : m1.heap.length = m.heap.length + 1 := by simp [hh]
    rw [hlen] at h2 hlog2
    refine ⟨m2, ?_, ?_, ?_, ?_, ?_⟩
    · simp only [fillVector, h1, h2, List.length_cons, List.range'_succ, List.map_cons,
        List.append_assoc, List.singleton_append]
    · simp [hh2, hh]
    · simp [hlog2, hlog, List.range'_succ]
    · simp only [hc2, hc, List.length_cons]
      omega
    · rw [hd2, hd]

theorem readAll_live (ns : List Int) :
    ∀ (pre : List Cell) (m : Mem), m.heap = pre ++ ns.map (fun v => ⟨v, false⟩) →
      readAll m ((List.range' (pre.length + 1) ns.length).map NoCopy.mk) = .ok ns := by
  induction ns with
  | nil => intro pre m _; rfl
  | cons n ns ih =>
    intro pre m hm
    have hc : m.cellAt (pre.length + 1) = some ⟨n, false⟩ := by
      simp only [Mem.cellAt, hm, List.map_cons]
      exact getElem?_append_cons_length _ _ _
    have hg : (⟨pre.length + 1⟩ : NoCopy).getS m = .ok n := deref_live m _ _ hc rfl
    have ih1 := ih (pre ++ [⟨n, false⟩]) m (by simp [hm])
    simp only [List.length_append, List.length_singleton] at ih1
    simp only [List.length_cons, List.range'_succ, List.map_cons, readAll, hg, ih1]

theorem destroyAll_live (ns : List Int) :
    ∀ (pre : List Cell) (m : Mem), m.heap = pre ++ ns.map (fun v => ⟨v, false⟩) →
      ∃ m1, destroyAll m ((List.range' (pre.length + 1) ns.length).map NoCopy.mk) = .ok m1 ∧
        m1.heap = pre ++ ns.map (fun v => ⟨v, true⟩) ∧
        m1.log = m.log ++ (List.range' (pre.length + 1) ns.length).map HeapEv.release ∧
        constructedCount m1.out = constructedCount m.out ∧
        destroyedCount m1.out = destroyedCount m.out + ns.length := by
  induction ns with
  | nil =>
    intro pre m hm
    exact ⟨m, rfl, by simpa using hm, by simp, rfl, rfl⟩
  | cons n ns ih =>
    intro pre m hm
    have hc : m.cellAt (pre.length + 1) = some ⟨n, false⟩ := by
      simp only [Mem.cellAt, hm, List.map_cons]
      exact getElem?_append_cons_length _ _ _
    have hd := dtor_live ⟨pre.length + 1⟩ m ⟨n, false⟩ hc rfl
    simp only [Nat.add_sub_cancel] at hd
    have hset : m.heap.set pre.length ⟨n, true⟩ =
        (pre ++ [⟨n, true⟩]) ++ ns.map (fun v => ⟨v, false⟩) := by
      rw [hm, List.map_cons, set_append_cons_length]
      simp
    obtain ⟨m2, h2, hh2, hlog2, hc2, hd2⟩ := ih (pre ++ [⟨n, true⟩])
      ⟨m.heap.set pre.length ⟨n, true⟩, m.log ++ [HeapEv.release (pre.length + 1)],
        m.out ++ [Msg.beingDestroyed n]⟩ hset
    simp only [List.length_append, List.length_singleton] at h2 hlog2
    refine ⟨m2, ?_, ?_, ?_, ?_, ?_⟩
    · simp only [List.length_cons, List.range'_succ, List.map_cons, destroyAll, hd, h2]
    · simp [hh2]
    · simp [hlog2, List.range'_succ]
    · rw [hc2]
      simp [constructedCount, List.countP_append]
    · rw [hd2]
      simp [destroyedCount, List.countP_append]
      omega

theorem count_range' (s n p : Nat) :
    (List.range' s n).count p = if s ≤ p ∧ p < s + n then 1 else 0 := by
  by_cases h : s ≤ p ∧ p < s + n
  · rw [if_pos h]
    exact List.count_eq_one_of_mem (List.nodup_range' s n) (List.mem_range'_1.2 h)
  · rw [if_neg h]
    exact List.count_eq_zero_of_not_mem (fun hm => h (List.mem_range'_1.1 hm))

theorem count_alloc_map_alloc (l : List Nat) (p : Nat) :
    (l.map HeapEv.alloc).count (HeapEv.alloc p) = l.count p := by
  induction l with
  | nil => rfl
  | cons x xs ih => simp [List.count_cons, ih]

theorem count_release_map_release (l : List Nat) (p : Nat) :
    (l.map HeapEv.release).count (HeapEv.release p) = l.count p := by
  induction l with
  | nil => rfl
  | cons x xs ih => simp [List.count_cons, ih]

theorem count_alloc_map_release (l : List Nat) (p : Nat) :
    (l.map HeapEv.release).count (HeapEv.alloc p) = 0 := by
  induction l with
  | nil => rfl
  | cons x xs ih => simp [List.count_cons, ih]

theorem count_release_map_alloc (l : List Nat) (p : Nat) :
    (l.map HeapEv.alloc).count (HeapEv.release p) = 0 := by
  induction l with
  | nil => rfl
  | cons x xs ih => simp [List.count_cons, ih]

theorem allocCount_maps (l k : List Nat) :
    allocCount (l.map HeapEv.alloc ++ k.map HeapEv.release) = l.length := by
  simp [allocCount, List.countP_append, List.countP_map, Function.comp_def]

theorem releaseCount_maps (l k : List Nat) :
    releaseCount (l.map HeapEv.alloc ++ k.map HeapEv.release) = k.length := by
  simp [releaseCount, List.countP_append, List.countP_map, Function.comp_def]

theorem vectorScope_eq (grow : Nat → Bool) (ns : List Int) (m : Mem) :
    ∃ m1, vectorScope grow ns m = .ok (ns, m1) ∧
      m1.heap = m.heap ++ ns.map (fun v => ⟨v, true⟩) ∧
      m1.log = m.log ++ ((List.range' (m.heap.length + 1) ns.length).map HeapEv.alloc ++
        (List.range' (m.heap.length + 1) ns.length).map HeapEv.release) ∧
      constructedCount m1.out = constructedCount m.out + ns.length ∧
      destroyedCount m1.out = destroyedCount m.out + ns.length := by
  obtain ⟨m1, h1, hh1, hlog1, hc1, hd1⟩ :=
    fillVector_live grow ns [] m (fun x hx => absurd hx (List.not_mem_nil x))
  rw [List.nil_append] at h1
  have hr := readAll_live ns m.heap m1 hh1
  obtain ⟨m2, h2, hh2, hlog2, hc2, hd2⟩ := destroyAll_live ns m.heap m1 hh1
  refine ⟨m2, ?_, hh2, ?_, ?_, ?_⟩
  · simp only [vectorScope, h1, hr, h2]
  · rw [hlog2, hlog1, List.append_assoc]
  · rw [hc2, hc1]
  · rw [hd2, hd1]

theorem mainBeforeLastRead_eq (grow : Nat → Bool) :
    ∃ m, mainBeforeLastRead grow = .ok (123, 123, ⟨0⟩, ⟨12⟩, m) ∧
      m.heap = [⟨1, false⟩, ⟨2, false⟩, ⟨1, true⟩, ⟨2, true⟩, ⟨3, true⟩, ⟨4, true⟩, ⟨1, false⟩,
        ⟨0, true⟩, ⟨1, true⟩, ⟨2, true⟩, ⟨3, true⟩, ⟨123, false⟩] ∧
      m.log = [.alloc 1, .alloc 2, .alloc 3, .alloc 4, .alloc 5, .alloc 6, .release 3,
        .release 4, .release 5, .release 6, .alloc 7, .alloc 8, .alloc 9, .alloc 10, .alloc 11,
        .release 11, .release 8, .release 9, .release 10, .alloc 12] := by
  obtain ⟨m1, h1, hh, hlog, _, _⟩ :=
    vectorScope_eq grow [1, 2, 3, 4] (NoCopy.ctor 2 (NoCopy.ctor 1 Mem.empty).2).2
  obtain ⟨heap, log, out⟩ := m1
  have hh1 : heap = [⟨1, false⟩, ⟨2, false⟩, ⟨1, true⟩, ⟨2, true⟩, ⟨3, true⟩, ⟨4, true⟩] := hh
  have hlog1 : log = [.alloc 1, .alloc 2, .alloc 3, .alloc 4, .alloc 5, .alloc 6, .release 3,
      .release 4, .release 5, .release 6] := hlog
  subst hh1 hlog1
  simp only [mainBeforeLastRead, h1]
  simp [ctor_eq, NoCopy.getS, Mem.deref, Mem.cellAt, destroyAll, NoCopy.dtor, Mem.deleteInt,
    Mem.print, NoCopy.moveCtor]

theorem mainLastRead_eq (grow : Nat → Bool) : mainLastRead grow = .error .nullDeref := by
  obtain ⟨m, h, _⟩ := mainBeforeLastRead_eq grow
  simp [mainLastRead, h, NoCopy.getS, deref_null]

/-! ## The claims about the vector block and the end of `main` -/

/-- C7: for every list `ns` of ints, every growth policy of the vector and every machine
state, the block that emplaces a temporary `NoCopy(n)` for each `n` of `ns`, prints the
elements and destroys the vector runs without fault and prints `ns`; the heap gains one
cell per int and each of them ends released; the allocator calls made by the block are
exactly `ns.length` allocations and `ns.length` releases, each new slot being allocated
once and released once and no other slot being touched; the output gains `ns.length`
`Constructed` lines and `ns.length` `Being destroyed` lines; and the temporary a move
leaves behind is empty, so that its destructor changes nothing. -/
theorem vector_scope_balanced (grow : Nat → Bool) (ns : List Int) (m : Mem) :
    ∃ m1, vectorScope grow ns m = .ok (ns, m1) ∧
      m1.heap = m.heap ++ ns.map (fun v => ⟨v, true⟩) ∧
      (∃ evs, m1.log = m.log ++ evs ∧
        allocCount evs = ns.length ∧ releaseCount evs = ns.length ∧
        ∀ p, evs.count (HeapEv.alloc p) =
              (if m.heap.length + 1 ≤ p ∧ p < m.heap.length + 1 + ns.length then 1 else 0) ∧
            evs.count (HeapEv.release p) =
              (if m.heap.length + 1 ≤ p ∧ p < m.heap.length + 1 + ns.length then 1 else 0)) ∧
      constructedCount m1.out = constructedCount m.out + ns.length ∧
      destroyedCount m1.out = destroyedCount m.out + ns.length ∧
      (∀ v m0, ∃ elem tmp m2,
        NoCopy.moveCtor (NoCopy.ctor v m0).1 (NoCopy.ctor v m0).2 = .ok (elem, tmp, m2) ∧
        tmp.isEmpty = true ∧ tmp.dtor m2 = .ok m2) := by
  obtain ⟨m1, h1, hh, hlog, hc, hd⟩ := vectorScope_eq grow ns m
  refine ⟨m1, h1, hh, ⟨_, hlog, ?_, ?_, ?_⟩, hc, hd, ?_⟩
  · rw [allocCount_maps, List.length_range']
  · rw [releaseCount_maps, List.length_range']
  · intro p
    rw [List.count_append, List.count_append, count_alloc_map_alloc, count_alloc_map_release,
      count_release_map_alloc, count_release_map_release, count_range']
    simp
  · intro v m0
    exact ⟨_, _, _, moveCtor_live (NoCopy.ctor v m0).1 (NoCopy.ctor v m0).2 ⟨v, false⟩
      (cellAt_ctor_new v m0) rfl, rfl, dtor_empty _⟩

/-- C9, as stated, fails: in `main` (with a vector that doubles its storage), at the
moment of the read on line 194 the pointer that `A.getS()` dereferences is null, it names
no released cell, and the read is a null dereference, not a read of released memory; the
slot `A` held before the move, now held by `B`, has not been released either.  The same
holds for `NoCopy A(123); NoCopy B(move(A));` run from the empty state. -/
theorem read_after_move_not_freed :
    mainBeforeLastRead doubling = .ok (123, 123, ⟨0⟩, ⟨12⟩, mainMem) ∧
    ¬ (∃ va vb a1 b m, mainBeforeLastRead doubling = .ok (va, vb, a1, b, m) ∧
        m.released a1.d_s = true) ∧
    ¬ (∃ va vb a1 b m, mainBeforeLastRead doubling = .ok (va, vb, a1, b, m) ∧
        m.released b.d_s = true) ∧
    (⟨0⟩ : NoCopy).getS mainMem = .error .nullDeref ∧
    mainLastRead doubling = .error .nullDeref ∧
    createThenMove 123 Mem.empty = .ok (⟨1⟩, ⟨1⟩, ⟨0⟩, afterMoveProg.mem) ∧
    ¬ (∃ a b a1 m1, createThenMove 123 Mem.empty = .ok (a, b, a1, m1) ∧
        m1.released a1.d_s = true) ∧
    ¬ (∃ a b a1 m1, createThenMove 123 Mem.empty = .ok (a, b, a1, m1) ∧
        m1.released a.d_s = true) ∧
    (⟨0⟩ : NoCopy).getS afterMoveProg.mem = .error .nullDeref ∧
    releaseCount afterMoveProg.mem.log = 0 := by
  have hm : mainBeforeLastRead doubling = .ok (123, 123, ⟨0⟩, ⟨12⟩, mainMem) := by decide
  have h : createThenMove 123 Mem.empty = .ok (⟨1⟩, ⟨1⟩, ⟨0⟩, afterMoveProg.mem) := by decide
  refine ⟨hm, ?_, ?_, by decide, by decide, h, ?_, ?_, by decide, by decide⟩
  · rintro ⟨va, vb, a1, b, m, h1, h2⟩
    rw [hm] at h1
    cases h1
    revert h2
    decide
  · rintro ⟨va, vb, a1, b, m, h1, h2⟩
    rw [hm] at h1
    cases h1
    revert h2
    decide
  · rintro ⟨a, b, a1, m1, h1, h2⟩
    rw [h] at h1
    cases h1
    revert h2
    decide
  · rintro ⟨a, b, a1, m1, h1, h2⟩
    rw [h] at h1
    cases h1
    revert h2
    decide

/-- C9, amended: for every int `v` and every machine state, after `NoCopy A(v);
NoCopy B(move(A));` the slot pointer of `A` is null, so `A.getS()` dereferences the null
pointer and faults; the slot `A` held is now held by `B`, is still allocated and holds
`v`, and no release has been recorded since the construction.  In `main`, whatever the
growth policy of the vector, the read on line 194 is that null dereference, reached
after lines 145 to 193 ran without fault and printed 123 twice. -/
theorem read_after_move_null (v : Int) (m : Mem) :
    (∃ a b a1 m1, createThenMove v m = .ok (a, b, a1, m1) ∧
      a1.d_s = 0 ∧ a1.getS m1 = .error .nullDeref ∧
      b.d_s = a.d_s ∧ m1.cellAt a.d_s = some ⟨v, false⟩ ∧
      m1.released a.d_s = false ∧ m1.released a1.d_s = false ∧
      releaseCount m1.log = releaseCount m.log) ∧
    (∀ grow, (∃ a1 b m1, mainBeforeLastRead grow = .ok (123, 123, a1, b, m1) ∧
        a1.d_s = 0 ∧ m1.released b.d_s = false) ∧
      mainLastRead grow = .error .nullDeref) := by
  refine ⟨⟨_, _, _, _, createThenMove_eq v m, ?_⟩, fun grow => ⟨?_, mainLastRead_eq grow⟩⟩
  · simp [NoCopy.getS, Mem.deref, Mem.cellAt, Mem.released, releaseCount_snoc_alloc]
  · obtain ⟨m1, h1, hh, _⟩ := mainBeforeLastRead_eq grow
    refine ⟨_, _, m1, h1, rfl, ?_⟩
    simp [Mem.released, Mem.cellAt, hh]

/-! ## Two concrete runs -/

/-- Run of the vector block on `{1,2,3,4}` from the empty state with a vector that doubles
its storage: four allocations, four releases, and the output lines in order. -/
theorem vectorScope_doubling :
    vectorScope doubling [1, 2, 3, 4] Mem.empty =
      .ok ([1, 2, 3, 4], ⟨[⟨1, true⟩, ⟨2, true⟩, ⟨3, true⟩, ⟨4, true⟩],
        [.alloc 1, .alloc 2, .alloc 3, .alloc 4, .release 1, .release 2, .release 3, .release 4],
        [.constructed 1, .moveConstructed 1, .constructed 2, .moveConstructed 2,
         .moveConstructed 1, .constructed 3, .moveConstructed 3, .moveConstructed 1,
         .moveConstructed 2, .constructed 4, .moveConstructed 4,
         .beingDestroyed 1, .beingDestroyed 2, .beingDestroyed 3, .beingDestroyed 4]⟩) := by
  decide

/-- Run of lines 145 to 193 of `main` with a vector that doubles its storage. -/
theorem mainBeforeLastRead_doubling :
    mainBeforeLastRead doubling = .ok (123, 123, ⟨0⟩, ⟨12⟩, mainMem) := by
  decide

end Tour
